import Mathlib

/-!
Verification development for the market-analysis news/stock correlation core.

The Python sources `src/market_analyzer.py` and `src/market_analyzer_fixed.py`
are shallowly embedded below.  Pure text processing (symbol extraction,
deduplication keys, thresholds, impact scoring, cache freshness checks,
day filtering) is translated directly; external collaborators (TextBlob,
yfinance, HTTP fetch, HTML parse) appear as explicit function parameters or
as pre-fetched input data, exactly at the call boundaries the code uses.
Floats are modelled as rationals; the one place where IEEE division by zero
matters (`_process_stock_data`) uses an explicit numpy-style float type.
-/

namespace MarketAnalysis

/-! ## Basic character/string helpers (Python `str.lower`, `in`, `find`, `split`) -/

/-- Lower-case a character list (Python `str.lower` on the ASCII inputs used). -/
def lowerL (l : List Char) : List Char := l.map Char.toLower

/-- Upper-case a character list (Python `str.upper`). -/
def upperL (l : List Char) : List Char := l.map Char.toUpper

/-- Test whether `p` is a prefix of `l` (decidable, character by character). -/
def isPrefL : List Char → List Char → Bool
  | [], _ => true
  | _ :: _, [] => false
  | p :: ps, c :: cs => p == c && isPrefL ps cs

/-- Python substring test `needle in hay`. -/
def subL : List Char → List Char → Bool
  | needle, [] => needle.isEmpty
  | needle, hay@(_ :: t) => isPrefL needle hay || subL needle t

/-- Python `hay.find(needle)` restricted to the case where the needle occurs
(the embedded code only calls it after an `in` check). -/
def idxOfSub : List Char → List Char → Nat
  | _, [] => 0
  | needle, hay@(_ :: t) => if isPrefL needle hay then 0 else idxOfSub needle t + 1

/-- Split a character list on whitespace, dropping empty fields: the behaviour
of Python `str.split()` with no argument. -/
def splitWS (l : List Char) (cur : List Char) : List (List Char) :=
  match l with
  | [] => if cur.isEmpty then [] else [cur.reverse]
  | c :: cs =>
    if c.isWhitespace then
      if cur.isEmpty then splitWS cs [] else cur.reverse :: splitWS cs []
    else splitWS cs (c :: cur)

/-- Join character lists with single spaces (Python `' '.join(...)`). -/
def joinSpace : List (List Char) → List Char
  | [] => []
  | [w] => w
  | w :: ws => w ++ ' ' :: joinSpace ws

/-- Normalised article title used as the deduplication key in
`run_analysis` / `get_recent_news` of `market_analyzer.py`:
`' '.join(title.lower().split())`. -/
def normTitle (t : String) : String := ⟨joinSpace (splitWS (lowerL t.data) [])⟩

/-- Add a string to a list if absent: the effect of `set.add` on the
membership structure of the accumulated symbol set. -/
def addUnique (l : List String) (s : String) : List String :=
  if s ∈ l then l else l ++ [s]

/-! ## A small regex engine for the `stock_phrases` patterns

`extract_stock_symbols` scans the raw text with seven regular expressions
(compiled with `re.IGNORECASE`) and collects the single capture group of each
match.  The engine below implements exactly the constructs those patterns
use: case-insensitive literals, the classes `[A-Z]`, `[0-9]`, `\s`, `[:\s]`,
ordered alternation, greedy `?`, greedy bounded repetition, greedy `+`, the
word boundary `\b`, and one capture group.  Results are produced in Python's
backtracking preference order and `findall` takes the first success at each
position, continuing after the end of a match (non-overlapping). -/

/-- Character classes appearing in the `stock_phrases` patterns.
`upper` is `[A-Z]` under `re.IGNORECASE`, hence any ASCII letter. -/
inductive RC where
  | upper : RC
  | digit : RC
  | space : RC
  | lit : Char → RC
deriving Repr, DecidableEq

/-- Class membership; literals compare case-insensitively (`re.IGNORECASE`). -/
def RC.matchesC : RC → Char → Bool
  | .upper, c => c.isAlpha
  | .digit, c => c.isDigit
  | .space, c => c.isWhitespace
  | .lit l, c => c.toLower == l.toLower

/-- Regular-expression syntax for the seven `stock_phrases` patterns. -/
inductive RE where
  | eps : RE
  | cl : RC → RE
  | seqR : RE → RE → RE
  | altR : RE → RE → RE
  | optR : RE → RE
  | starR : RE → RE
  | wb : RE
  | grp : RE → RE
deriving Repr

/-- Python word character for `\b`: `[A-Za-z0-9_]`. -/
def isWordChar (c : Char) : Bool := c.isAlphanum || c == '_'

/-- Word boundary test between the previous character (if any) and the rest of
the input. -/
def atBoundary (prev : Option Char) (s : List Char) : Bool :=
  let l := match prev with | none => false | some c => isWordChar c
  let r := match s with | [] => false | c :: _ => isWordChar c
  l != r

/-- Backtracking matcher.  Returns the list of possible outcomes
`(previous character, remaining input, captured group)` in Python's
preference order (alternation left first, quantifiers greedy).  The fuel
bounds the recursion; callers supply ample fuel. -/
def mrun : Nat → RE → Option Char → List Char → List (Option Char × List Char × List Char)
  | 0, _, _, _ => []
  | _ + 1, .eps, prev, s => [(prev, s, [])]
  | _ + 1, .cl rc, _, s =>
    match s with
    | [] => []
    | c :: cs => if rc.matchesC c then [(some c, cs, [])] else []
  | fuel + 1, .seqR r1 r2, prev, s =>
    (mrun fuel r1 prev s).flatMap fun (p1, s1, c1) =>
      (mrun fuel r2 p1 s1).map fun (p2, s2, c2) => (p2, s2, c1 ++ c2)
  | fuel + 1, .altR r1 r2, prev, s => mrun fuel r1 prev s ++ mrun fuel r2 prev s
  | fuel + 1, .optR r, prev, s => mrun fuel r prev s ++ [(prev, s, [])]
  | fuel + 1, .starR r, prev, s =>
    ((mrun fuel r prev s).flatMap fun (p1, s1, c1) =>
      if s1.length < s.length then
        (mrun fuel (.starR r) p1 s1).map fun (p2, s2, c2) => (p2, s2, c1 ++ c2)
      else []) ++ [(prev, s, [])]
  | _ + 1, .wb, prev, s => if atBoundary prev s then [(prev, s, [])] else []
  | fuel + 1, .grp r, prev, s =>
    (mrun fuel r prev s).map fun (p1, s1, _) => (p1, s1, s.take (s.length - s1.length))

/-- Scan for non-overlapping matches left to right, taking at each position
the first (preferred) match and continuing after its end: the semantics of
`re.findall` for patterns with one capture group. -/
def findAllF : Nat → RE → Option Char → List Char → List (List Char)
  | 0, _, _, _ => []
  | _ + 1, _, _, [] => []
  | fuel + 1, re, prev, s@(c :: cs) =>
    match (mrun ((s.length + 1) * 64) re prev s).head? with
    | some (p', rest, cap) =>
      if rest.length < s.length then cap :: findAllF fuel re p' rest
      else findAllF fuel re (some c) cs
    | none => findAllF fuel re (some c) cs

/-- All capture-group results of a pattern over a text. -/
def findall (re : RE) (s : List Char) : List (List Char) :=
  findAllF (s.length + 1) re none s

/-- Case-insensitive literal string. -/
def rstr (s : String) : RE := s.data.foldr (fun c acc => .seqR (.cl (.lit c)) acc) .eps

/-- Ordered alternation of a list of alternatives. -/
def ralts : List RE → RE
  | [] => .eps
  | [r] => r
  | r :: rest => .altR r (ralts rest)

/-- Greedy `{0,n}` repetition. -/
def repUpTo : Nat → RE → RE
  | 0, _ => .eps
  | k + 1, r => .optR (.seqR r (repUpTo k r))

/-- Greedy `{1,n}` repetition. -/
def rep1To (n : Nat) (r : RE) : RE := .seqR r (repUpTo (n - 1) r)

/-- Greedy `+` repetition. -/
def plusR (r : RE) : RE := .seqR r (.starR r)

/-- The ticker capture group `([A-Z]{1,5}(?:\.[A-Z])?)` shared by all seven
patterns. -/
def tickerGrp : RE :=
  .grp (.seqR (rep1To 5 (.cl .upper)) (.optR (.seqR (.cl (.lit '.')) (.cl .upper))))

/-- One or more whitespace characters, `\s+`. -/
def ws1 : RE := plusR (.cl .space)

/-- The `stock_phrases` patterns of `extract_stock_symbols`, in source order:
dollar-prefixed ticker; ticker followed by a company-suffix word; ticker
preceded by "shares of"/"stock in"; ticker followed by a price-movement verb;
ticker followed by a signed percentage; ticker preceded by "buy"/"sell";
ticker preceded by "ticker:". -/
def stock_phrases : List RE :=
  [ .seqR (.cl (.lit '$')) (.seqR tickerGrp .wb),
    .seqR .wb (.seqR tickerGrp (.seqR ws1 (.seqR
      (ralts [rstr "stock", rstr "shares",
              .seqR (rstr "inc") (.optR (.cl (.lit '.'))),
              .seqR (rstr "corp") (.optR (.cl (.lit '.'))),
              rstr "group"]) .wb))),
    .seqR (ralts [rstr "shares of", rstr "stock in"]) (.seqR ws1 (.seqR tickerGrp .wb)),
    .seqR .wb (.seqR tickerGrp (.seqR ws1 (.seqR
      (ralts [rstr "rose", rstr "fell", rstr "jumped", rstr "plunged",
              rstr "gained", rstr "lost"]) .wb))),
    .seqR .wb (.seqR tickerGrp (.seqR ws1 (.seqR
      (.optR (ralts [.cl (.lit '+'), .cl (.lit '-')]))
      (.seqR (plusR (.cl .digit))
        (.seqR (.optR (.seqR (.cl (.lit '.')) (plusR (.cl .digit))))
          (.cl (.lit '%'))))))),
    .seqR (ralts [rstr "buy", rstr "sell"]) (.seqR ws1 (.seqR tickerGrp .wb)),
    .seqR (rstr "ticker") (.seqR (plusR (ralts [.cl (.lit ':'), .cl .space]))
      (.seqR tickerGrp .wb)) ]

/-! ## The symbol registry and `extract_stock_symbols` (market_analyzer.py) -/

/-- One entry of the `stock_symbols` registry: matching vocabulary and the
logo reference, as loaded by `load_stock_symbols`. -/
structure StockEntry where
  primary : List String
  secondary : List String
  exact : List String
  logo : String
deriving Repr, DecidableEq

/-- The static registry returned by `load_stock_symbols`, in source order. -/
def stock_symbols : List (String × StockEntry) :=
  [ ("AAPL", { primary := ["apple", "iphone"],
               secondary := ["mac", "macbook", "ios", "app store"],
               exact := ["AAPL", "$AAPL"],
               logo := "https://logo.clearbit.com/apple.com" }),
    ("GOOGL", { primary := ["google", "alphabet inc", "alphabet"],
                secondary := ["android", "chrome", "pixel"],
                exact := ["GOOGL", "$GOOGL", "GOOG", "$GOOG"],
                logo := "https://logo.clearbit.com/google.com" }),
    ("MSFT", { primary := ["microsoft"],
               secondary := ["windows", "azure", "xbox"],
               exact := ["MSFT", "$MSFT"],
               logo := "https://logo.clearbit.com/microsoft.com" }),
    ("AMZN", { primary := ["amazon"],
               secondary := ["aws", "prime", "kindle"],
               exact := ["AMZN", "$AMZN"],
               logo := "https://logo.clearbit.com/amazon.com" }),
    ("META", { primary := ["meta", "facebook"],
               secondary := ["instagram", "whatsapp", "oculus"],
               exact := ["META", "$META", "FB", "$FB"],
               logo := "https://logo.clearbit.com/meta.com" }),
    ("NVDA", { primary := ["nvidia", "nvda"],
               secondary := ["geforce", "gpu"],
               exact := ["NVDA", "$NVDA"],
               logo := "https://logo.clearbit.com/nvidia.com" }),
    ("TSLA", { primary := ["tesla", "elon musk"],
               secondary := ["model 3", "model y", "cybertruck"],
               exact := ["TSLA", "$TSLA"],
               logo := "https://logo.clearbit.com/tesla.com" }),
    ("BRK-B", { primary := ["berkshire", "berkshire hathaway", "buffett"],
                secondary := ["warren buffett", "charlie munger"],
                exact := ["BRK.B", "BRK-B", "$BRK.B", "$BRK-B"],
                logo := "https://logo.clearbit.com/berkshirehathaway.com" }),
    ("VLVLY", { primary := ["volvo", "volvo group"],
                secondary := ["volvo cars", "volvo trucks"],
                exact := ["VLVLY", "$VLVLY"],
                logo := "https://logo.clearbit.com/volvo.com" }) ]

/-- The financial-vocabulary set of the primary-keyword context stage. -/
def financial_terms : List String :=
  ["stock", "share", "market", "price", "investor", "trading",
   "earnings", "revenue", "profit", "dividend", "nasdaq", "nyse",
   "up", "down", "rise", "fall", "gain", "loss", "jump", "plunge"]

/-- All capture-group results of the seven `stock_phrases` over the raw text:
the matches examined by the first pass of `extract_stock_symbols`. -/
def stage1Captures (t : List Char) : List (List Char) :=
  (stock_phrases.map (fun p => findall p t)).flatten

/-- The exact-alias membership test of the first pass: the upper-cased match
against the upper-cased exact-alias set of one registry entry. -/
def exactCond (m : List Char) (e : String × StockEntry) : Bool :=
  decide ((upperL m) ∈ e.2.exact.map (fun s => upperL s.data))

/-- The registry scan the first pass performs for one regex match. -/
def exactScan (m : List Char) (acc : List String) : List String :=
  stock_symbols.foldl (fun acc e => if exactCond m e then addUnique acc e.1 else acc) acc

/-- First pass of `extract_stock_symbols`: each match is upper-cased and
added for every registry symbol whose exact-alias set (upper-cased) contains
it. -/
def stage1Symbols (t : List Char) : List String :=
  (stage1Captures t).foldl (fun acc m => exactScan m acc) []

/-- Second pass for one symbol: scan its primary keywords in order; a keyword
occurring in the lower-cased text confirms the symbol when a 100-character
window around its first occurrence contains a financial term, and the scan
stops there; otherwise later primary keywords are tried. -/
def primaryConfirm (primaries : List String) (textLower : List Char) : Bool :=
  match primaries with
  | [] => false
  | p :: ps =>
    let pl := lowerL p.data
    if subL pl textLower then
      let i := idxOfSub pl textLower
      let start := i - 100
      let stop := min textLower.length (i + pl.length + 100)
      let context := (textLower.drop start).take (stop - start)
      if financial_terms.any (fun term => subL term.data context) then true
      else primaryConfirm ps textLower
    else primaryConfirm ps textLower

/-- Third pass for one symbol: count secondary keywords occurring in the
lower-cased text, confirming as soon as the count reaches 2 (the loop's
early exit). -/
def secondaryVote (secondaries : List String) (textLower : List Char) (n : Nat) : Bool :=
  match secondaries with
  | [] => false
  | k :: ks =>
    if subL (lowerL k.data) textLower then
      if n + 1 ≥ 2 then true else secondaryVote ks textLower (n + 1)
    else secondaryVote ks textLower n

/-- Secondary-keyword confirmation for one symbol, starting from count 0. -/
def secondaryConfirm (secondaries : List String) (textLower : List Char) : Bool :=
  secondaryVote secondaries textLower 0

/-- The per-symbol step of the second loop of `extract_stock_symbols`:
symbols already found are skipped; otherwise the primary-keyword context
check, then the secondary-keyword vote, may add the symbol. -/
def extractStep (textLower : List Char) (acc : List String) (e : String × StockEntry) :
    List String :=
  if e.1 ∈ acc then acc
  else if primaryConfirm e.2.primary textLower then addUnique acc e.1
  else if secondaryConfirm e.2.secondary textLower then addUnique acc e.1
  else acc

/-- `extract_stock_symbols` of `market_analyzer.py`: the exact-match pass over
the raw text, then for each registry symbol the primary-keyword context pass
and the secondary-keyword vote on the lower-cased text. -/
def extract_stock_symbols (text : String) : List String :=
  let textLower := lowerL text.data
  stock_symbols.foldl (extractStep textLower) (stage1Symbols text.data)

/-- Count of a symbol's secondary keywords occurring in the lower-cased text. -/
def secondaryCount (secondaries : List String) (textLower : List Char) : Nat :=
  (secondaries.filter (fun k => subL (lowerL k.data) textLower)).length

/-! ## Sentiment (both `analyze_sentiment` variants and the impact blend)

TextBlob is an external library; its successful result is a
polarity/subjectivity pair and its failure raises, caught by the
surrounding `try`.  The outcome of the TextBlob call is therefore passed in
as `Option (ℚ × ℚ)` (`none` models the exception path). -/

/-- A sentiment record: polarity, subjectivity, and the assessment string. -/
structure Sentiment where
  polarity : ℚ
  subjectivity : ℚ
  assessment : String
deriving Repr, DecidableEq

/-- `analyze_sentiment` of `market_analyzer.py`: thresholds at plus/minus 0.2,
and on an analysis failure a zero record tagged `error`. -/
def analyze_sentiment (blob : Option (ℚ × ℚ)) : Sentiment :=
  match blob with
  | some (p, s) =>
    { polarity := p, subjectivity := s,
      assessment :=
        if p > 2/10 then "positive" else if p < -(2/10) then "negative" else "neutral" }
  | none => { polarity := 0, subjectivity := 0, assessment := "error" }

/-- `analyze_sentiment` of `market_analyzer_fixed.py`: same thresholds, but on
an analysis failure the zero record is tagged `neutral`. -/
def analyze_sentiment_fixed (blob : Option (ℚ × ℚ)) : Sentiment :=
  match blob with
  | some (p, s) =>
    { polarity := p, subjectivity := s,
      assessment :=
        if p > 2/10 then "positive" else if p < -(2/10) then "negative" else "neutral" }
  | none => { polarity := 0, subjectivity := 0, assessment := "neutral" }

/-- The combined sentiment computed inside `analyze_stock_impact`: the text
analysed alongside the bare title is `f"{title} {title} {summary}"` (the
title appears twice), the blend weights are 0.7 / 0.3, and the combined
assessment uses the plus/minus 0.15 thresholds.  The TextBlob scorer is the
function parameter. -/
def analyze_stock_impact_sentiment (score : String → ℚ × ℚ) (title summary : String) :
    Sentiment :=
  let text := title ++ " " ++ title ++ " " ++ summary
  let ts := analyze_sentiment (some (score title))
  let fs := analyze_sentiment (some (score text))
  let p := ts.polarity * (7/10) + fs.polarity * (3/10)
  let s := ts.subjectivity * (7/10) + fs.subjectivity * (3/10)
  { polarity := p, subjectivity := s,
    assessment :=
      if p > 15/100 then "positive" else if p < -(15/100) then "negative" else "neutral" }

/-- Modelled from the spec: the blend the specification describes, scoring the
headline and the headline-plus-body concatenation `H ++ " " ++ B`.  Stated
for comparison with `analyze_stock_impact_sentiment`, which is what the code
computes. -/
def combined_sentiment_spec (score : String → ℚ × ℚ) (title summary : String) : ℚ :=
  (score title).1 * (7/10) + (score (title ++ " " ++ summary)).1 * (3/10)

/-! ## Stock metrics (`_process_stock_data` of market_analyzer_fixed.py)

The history frame comes from yfinance as numpy floats; numpy division by
zero yields an infinity or NaN rather than raising, which the explicit
float type below records. -/

/-- A numpy-style floating value: finite, positive or negative infinity, or
NaN. -/
inductive NpFloat where
  | num : ℚ → NpFloat
  | inf : NpFloat
  | ninf : NpFloat
  | nan : NpFloat
deriving Repr, DecidableEq

/-- Numpy division: a nonzero value divided by zero gives a signed infinity,
zero by zero gives NaN; non-finite operands propagate. -/
def npDiv : NpFloat → NpFloat → NpFloat
  | .num a, .num b =>
    if b = 0 then (if a > 0 then .inf else if a < 0 then .ninf else .nan)
    else .num (a / b)
  | .nan, _ => .nan
  | _, .nan => .nan
  | .inf, .num b => if b < 0 then .ninf else .inf
  | .ninf, .num b => if b < 0 then .inf else .ninf
  | .num _, .inf => .num 0
  | .num _, .ninf => .num 0
  | _, _ => .nan

/-- Numpy multiplication, for the `* 100` scaling of percentages. -/
def npMul : NpFloat → NpFloat → NpFloat
  | .num a, .num b => .num (a * b)
  | .nan, _ => .nan
  | _, .nan => .nan
  | .inf, .num b => if b < 0 then .ninf else if b = 0 then .nan else .inf
  | .num a, .inf => if a < 0 then .ninf else if a = 0 then .nan else .inf
  | .ninf, .num b => if b < 0 then .inf else if b = 0 then .nan else .ninf
  | .num a, .ninf => if a < 0 then .inf else if a = 0 then .nan else .ninf
  | .inf, .inf => .inf
  | .ninf, .ninf => .inf
  | _, _ => .ninf

/-- One row of the yfinance history frame (the columns the code reads). -/
structure HistRow where
  close : ℚ
  volume : ℚ
  high : ℚ
  low : ℚ
deriving Repr, DecidableEq

/-- The essential tracked-stock table (`symbol`, name, sector) of
`market_analyzer_fixed.py`. -/
def tracked_stocks : List (String × String × String) :=
  [ ("AAPL", "Apple Inc.", "Technology"),
    ("MSFT", "Microsoft Corp.", "Technology"),
    ("GOOGL", "Alphabet Inc.", "Technology"),
    ("AMZN", "Amazon.com Inc.", "Consumer Cyclical"),
    ("META", "Meta Platforms Inc.", "Technology") ]

/-- The record `_process_stock_data` returns. -/
structure StockDataF where
  symbol : String
  name : String
  current_price : ℚ
  change : ℚ
  change_percent : NpFloat
  volume : ℚ
  high : ℚ
  low : ℚ
deriving Repr, DecidableEq

/-- `_process_stock_data`: latest close, previous close (the latest itself for
a one-row frame), absolute change, and the percentage change obtained by
dividing by the previous close with no zero guard.  The caller guarantees a
nonempty frame (`hist.empty` returns before the call); the defaults for an
empty list are never reached. -/
def process_stock_data (symbol : String) (hist : List HistRow) : StockDataF :=
  let z : HistRow := { close := 0, volume := 0, high := 0, low := 0 }
  let current_price := (hist.getLastD z).close
  let previous_close :=
    if hist.length > 1 then ((hist.drop (hist.length - 2)).headD z).close
    else current_price
  let change := current_price - previous_close
  let change_percent := npMul (npDiv (.num change) (.num previous_close)) (.num 100)
  { symbol := symbol,
    name := ((tracked_stocks.filter (fun e => e.1 == symbol)).headD
      (symbol, "", "")).2.1,
    current_price := current_price,
    change := change,
    change_percent := change_percent,
    volume := (hist.getLastD z).volume,
    high := (hist.getLastD z).high,
    low := (hist.getLastD z).low }

/-! ## Cache freshness -/

/-- Python `timedelta.seconds` for a nonnegative span given in whole seconds:
the seconds component after whole days are split off. -/
def td_seconds (delta : Nat) : Nat := delta % 86400

/-- The disk-cache freshness check of `get_stock_data` in
`market_analyzer.py`: the cached file is used when
`(datetime.now() - mtime).seconds < 3600`. -/
def disk_cache_fresh (now mtime : Nat) : Bool := td_seconds (now - mtime) < 3600

/-- The in-memory freshness check of `get_stock_data` in
`market_analyzer_fixed.py`: a cached entry is used while
`now - timestamp < stock_cache_duration` (5 minutes). -/
def stock_cache_fresh (now ts : Nat) : Bool := now - ts < 300

/-! ## Day filtering -/

/-- The day filter of `get_recent_news` in `market_analyzer.py`, on calendar
dates encoded as day numbers: a missing timestamp is first replaced by the
current time, then a today query keeps only today's date and a yesterday
query keeps only yesterday's. -/
def keep_analyzer (todayOnly : Bool) (today : Int) (ts : Option Int) : Bool :=
  let d := ts.getD today
  if todayOnly then d == today else d == today - 1

/-- The day filter of `get_recent_news` in `market_analyzer_fixed.py`: an
article without a parsed date is not filtered at all; with a date, a today
query keeps today's date and a yesterday query keeps today's or yesterday's. -/
def keep_fixed (todayOnly : Bool) (today : Int) (d : Option Int) : Bool :=
  match d with
  | none => true
  | some d => if todayOnly then d == today else (d == today || d == today - 1)

/-! ## Python `abs`, `max` and descending sort by key -/

/-- Python `abs` on a rational. -/
def pyAbs (q : ℚ) : ℚ := if q < 0 then -q else q

/-- Python binary `max`. -/
def pyMax (a b : ℚ) : ℚ := if a < b then b else a

/-- `max([...], default=0)` over the absolute percent changes of the fetched
stock data, as in the impact-score computation. -/
def maxAbsMove (sd : List (String × ℚ)) : ℚ :=
  (sd.map (fun p => pyAbs p.2)).foldl pyMax 0

/-- Insert an element into a key-descending sorted list, before the first
strictly smaller key. -/
def insertDesc (key : α → ℚ) (x : α) : List α → List α
  | [] => [x]
  | y :: ys => if key y < key x then x :: y :: ys else y :: insertDesc key x ys

/-- Sort descending by a rational key (the effect of
`results.sort(key=..., reverse=True)` on the ordering relation). -/
def sortDesc (key : α → ℚ) : List α → List α
  | [] => []
  | x :: xs => insertDesc key x (sortDesc key xs)

/-! ## The live-news pipeline of `market_analyzer_fixed.py`

`get_recent_news` iterates over the parsed articles of every source, dedups
on the raw article title, applies the fixed-variant day filter, detects
mentioned stocks, fetches their data, scores sentiment, computes the impact
score, and finally sorts the results by impact score descending.  The
external collaborators are parameters: `detect` for `detect_stock_mentions`
(whose keyword table is external configuration), `getData` for the
per-symbol `change_percent` delivered by `get_stock_data`, and `senti` for
the TextBlob polarity of the analysed text. -/

/-- A parsed article for the fixed pipeline: title, summary, and the optional
calendar date the parser attached. -/
structure FArticle where
  title : String
  summary : String
  date : Option Int
deriving Repr, DecidableEq

/-- One output entry of the fixed pipeline. -/
structure FResult where
  article : FArticle
  mentioned_stocks : List String
  stock_data : List (String × ℚ)
  polarity : ℚ
  impact_score : ℚ
deriving Repr, DecidableEq

/-- Per-source article loop of the fixed `get_recent_news`: raw-title dedup
(the title is recorded as seen before the day filter), day filter, stock
detection, data fetch, sentiment, and the impact score
`max_stock_move * 0.7 + abs(polarity) * 0.3`; articles mentioning no stock
produce no entry. -/
def fixedLoop (detect : String → List String) (getData : String → Option ℚ)
    (senti : String → ℚ) (todayOnly : Bool) (today : Int) :
    List FArticle → List String → List FResult → List String × List FResult
  | [], seen, res => (seen, res)
  | a :: rest, seen, res =>
    if a.title ∈ seen then fixedLoop detect getData senti todayOnly today rest seen res
    else
      let seen' := seen ++ [a.title]
      if keep_fixed todayOnly today a.date then
        let text := a.title ++ " " ++ a.summary
        let stocks := detect text
        if stocks.isEmpty then fixedLoop detect getData senti todayOnly today rest seen' res
        else
          let sd := stocks.filterMap (fun s => (getData s).map (fun q => (s, q)))
          let p := senti text
          let imp := maxAbsMove sd * (7/10) + pyAbs p * (3/10)
          fixedLoop detect getData senti todayOnly today rest seen'
            (res ++ [{ article := a, mentioned_stocks := stocks, stock_data := sd,
                       polarity := p, impact_score := imp }])
      else fixedLoop detect getData senti todayOnly today rest seen' res

/-- The fixed `get_recent_news` over the per-source parsed article lists:
the per-source loops share one seen-title set, and the collected results are
sorted by impact score descending. -/
def get_recent_news_fixed (detect : String → List String) (getData : String → Option ℚ)
    (senti : String → ℚ) (todayOnly : Bool) (today : Int)
    (sources : List (List FArticle)) : List FResult :=
  sortDesc (fun r => r.impact_score)
    (sources.foldl
      (fun st arts => fixedLoop detect getData senti todayOnly today arts st.1 st.2)
      ([], [])).2

/-! ## `get_recent_news` of `market_analyzer.py`

This variant dedups on the whitespace-normalised lower-cased title, takes
only the first 10 parsed articles of each source, assigns a missing
timestamp the current time, day-filters, extracts symbols with
`extract_stock_symbols`, and records the seen title only after the filters
(so a filtered-out article does not block a later duplicate).  Stock data
and sentiment are external parameters as above. -/

/-- A parsed article for `market_analyzer.py`: the timestamp is the parsed
calendar date when present. -/
structure PArticle where
  title : String
  summary : String
  timestamp : Option Int
deriving Repr, DecidableEq

/-- The timestamp default: a missing timestamp becomes the current time. -/
def updTs (today : Int) (a : PArticle) : PArticle :=
  { a with timestamp := some (a.timestamp.getD today) }

/-- One output entry of `get_recent_news` in `market_analyzer.py`. -/
structure PResult where
  article : PArticle
  affected_stocks : List String
  stock_data : List (String × ℚ)
  polarity : ℚ
deriving Repr, DecidableEq

/-- Per-source loop of `get_recent_news` in `market_analyzer.py`, over the
first 10 parsed articles (the truncation is applied by the caller):
normalised-title dedup, timestamp default, day filter, extraction, data
fetch, sentiment, result; the seen set grows only when a result is built. -/
def analyzerLoop (getData : String → Option ℚ) (senti : String → ℚ)
    (todayOnly : Bool) (today : Int) :
    List PArticle → List String → List PResult → List String × List PResult
  | [], seen, res => (seen, res)
  | a :: rest, seen, res =>
    let t := normTitle a.title
    if t ∈ seen then analyzerLoop getData senti todayOnly today rest seen res
    else
      let a' := updTs today a
      if keep_analyzer todayOnly today a.timestamp then
        let text := a.title ++ " " ++ a.summary
        let stocks := extract_stock_symbols text
        let sd := stocks.filterMap (fun s => (getData s).map (fun q => (s, q)))
        analyzerLoop getData senti todayOnly today rest (seen ++ [t])
          (res ++ [{ article := a', affected_stocks := stocks, stock_data := sd,
                     polarity := senti text }])
      else analyzerLoop getData senti todayOnly today rest seen res

/-- `get_recent_news` of `market_analyzer.py` over the per-source parsed
article lists: each source contributes at most its first 10 articles. -/
def get_recent_news_analyzer (getData : String → Option ℚ) (senti : String → ℚ)
    (todayOnly : Bool) (today : Int) (sources : List (List PArticle)) : List PResult :=
  (sources.foldl
    (fun st arts => analyzerLoop getData senti todayOnly today (arts.take 10) st.1 st.2)
    ([], [])).2

/-! ## `run_analysis` of `market_analyzer.py`

The complete-analysis entry point dedups on the normalised title before any
enrichment (the title is recorded as seen immediately), then runs
`analyze_stock_impact` on the single article, which yields at most one
impact record; the per-article enrichment outcome is the parameter. -/

/-- Per-source article loop of `run_analysis`: normalised-title dedup first
(the title is marked seen whether or not enrichment produces an impact),
then the enrichment outcome is appended when present. -/
def runAnalysisLoop (enrich : PArticle → Option ι) :
    List PArticle → List String → List (PArticle × ι) → List String × List (PArticle × ι)
  | [], seen, res => (seen, res)
  | a :: rest, seen, res =>
    let t := normTitle a.title
    if t ∈ seen then runAnalysisLoop enrich rest seen res
    else
      match enrich a with
      | some r => runAnalysisLoop enrich rest (seen ++ [t]) (res ++ [(a, r)])
      | none => runAnalysisLoop enrich rest (seen ++ [t]) res

/-- `run_analysis` over the per-source parsed article lists. -/
def run_analysis (enrich : PArticle → Option ι) (sources : List (List PArticle)) :
    List (PArticle × ι) :=
  (sources.foldl (fun st arts => runAnalysisLoop enrich arts st.1 st.2) ([], [])).2

/-! ## Concrete instances used by witnesses and counterexamples -/

/-- The registry entry of AAPL. -/
def aaplEntry : StockEntry :=
  { primary := ["apple", "iphone"],
    secondary := ["mac", "macbook", "ios", "app store"],
    exact := ["AAPL", "$AAPL"],
    logo := "https://logo.clearbit.com/apple.com" }

/-- A concrete TextBlob stand-in distinguishing the three texts of the blend
counterexample. -/
def cexScore (t : String) : ℚ × ℚ :=
  if t = "a" then (1/10, 0) else if t = "a a b" then (2/10, 0) else (3/10, 0)

/-- Example article whose symbol resolves to a six-percent move. -/
def sixMoveArticle : FArticle := { title := "tsla six", summary := "", date := none }

/-- Example article whose symbol resolves to a zero-percent move. -/
def zeroMoveArticle : FArticle := { title := "msft zero", summary := "", date := none }

/-- Example stock detector for the ranking instance. -/
def exampleDetect (t : String) : List String :=
  if t = "tsla six " then ["TSLA"] else ["MSFT"]

/-- Example per-symbol percent change for the ranking instance. -/
def exampleData (s : String) : Option ℚ := if s = "TSLA" then some 6 else some 0

/-- Example sentiment polarity for the ranking instance: 1.0 on the
zero-move article, neutral otherwise. -/
def exampleSenti (t : String) : ℚ := if t = "msft zero " then 1 else 0

/-- Duplicate-feed article, first copy: extra inner space, capitalised. -/
def dupArticleA : FArticle := { title := "Apple  Up", summary := "", date := none }

/-- Duplicate-feed article, second copy: same normalised title, different raw
title. -/
def dupArticleB : FArticle := { title := "apple up", summary := "", date := none }

/-- A detector that reports one stock for every text. -/
def constDetect (_ : String) : List String := ["AAPL"]

/-- Stock data resolving every symbol to a one-percent move. -/
def constData (_ : String) : Option ℚ := some 1

/-- Neutral sentiment for every text. -/
def constSenti (_ : String) : ℚ := 0

/-- Eleven parsed articles with distinct titles and no timestamps. -/
def elevenArticles : List PArticle :=
  [ { title := "a0", summary := "", timestamp := none },
    { title := "a1", summary := "", timestamp := none },
    { title := "a2", summary := "", timestamp := none },
    { title := "a3", summary := "", timestamp := none },
    { title := "a4", summary := "", timestamp := none },
    { title := "a5", summary := "", timestamp := none },
    { title := "a6", summary := "", timestamp := none },
    { title := "a7", summary := "", timestamp := none },
    { title := "a8", summary := "", timestamp := none },
    { title := "a9", summary := "", timestamp := none },
    { title := "a10", summary := "", timestamp := none } ]

/-- Stock data resolving no symbol. -/
def noStockData (_ : String) : Option ℚ := none

/-- Zero sentiment for every text. -/
def zeroSenti (_ : String) : ℚ := 0

/-! ## Helper lemmas: sorting -/

theorem mem_insertDesc {key : α → ℚ} {x a : α} {l : List α} :
    a ∈ insertDesc key x l ↔ a = x ∨ a ∈ l := by
  induction l with
  | nil => simp [insertDesc]
  | cons y ys ih =>
    by_cases h : key y < key x
    · simp [insertDesc, h]
    · simp only [insertDesc, if_neg h, List.mem_cons, ih]
      tauto

theorem pairwise_insertDesc {key : α → ℚ} {x : α} {l : List α}
    (h : l.Pairwise (fun a b => key b ≤ key a)) :
    (insertDesc key x l).Pairwise (fun a b => key b ≤ key a) := by
  induction l with
  | nil => simp [insertDesc]
  | cons y ys ih =>
    rw [List.pairwise_cons] at h
    by_cases hlt : key y < key x
    · rw [insertDesc, if_pos hlt, List.pairwise_cons]
      refine ⟨?_, List.pairwise_cons.mpr h⟩
      intro z hz
      rcases List.mem_cons.mp hz with rfl | hz
      · exact le_of_lt hlt
      · exact le_trans (h.1 z hz) (le_of_lt hlt)
    · rw [insertDesc, if_neg hlt, List.pairwise_cons]
      refine ⟨?_, ih h.2⟩
      intro z hz
      rcases mem_insertDesc.mp hz with rfl | hz
      · exact le_of_not_lt hlt
      · exact h.1 z hz

theorem pairwise_sortDesc {key : α → ℚ} (l : List α) :
    (sortDesc key l).Pairwise (fun a b => key b ≤ key a) := by
  induction l with
  | nil => simp [sortDesc]
  | cons x xs ih => exact pairwise_insertDesc ih

theorem mem_sortDesc {key : α → ℚ} {a : α} {l : List α} :
    a ∈ sortDesc key l ↔ a ∈ l := by
  induction l with
  | nil => simp [sortDesc]
  | cons x xs ih => simp [sortDesc, mem_insertDesc, ih]

theorem countP_insertDesc {key : α → ℚ} (p : α → Bool) (x : α) (l : List α) :
    (insertDesc key x l).countP p = (x :: l).countP p := by
  induction l with
  | nil => rfl
  | cons y ys ih =>
    by_cases h : key y < key x
    · simp [insertDesc, h]
    · simp only [insertDesc, if_neg h, List.countP_cons, ih]
      omega

theorem countP_sortDesc {key : α → ℚ} (p : α → Bool) (l : List α) :
    (sortDesc key l).countP p = l.countP p := by
  induction l with
  | nil => rfl
  | cons x xs ih => rw [sortDesc, countP_insertDesc, List.countP_cons, List.countP_cons, ih]

theorem length_sortDesc {key : α → ℚ} (l : List α) :
    (sortDesc key l).length = l.length := by
  have h := @countP_sortDesc _ key (fun _ => true) l
  simpa [List.countP_true] using h

/-- A list whose images under `f` are pairwise distinct has at most one
element with any given image. -/
theorem countP_le_one_of_nodup_map {f : α → String} {l : List α}
    (h : (l.map f).Nodup) (T : String) :
    l.countP (fun x => f x == T) ≤ 1 := by
  induction l with
  | nil => simp
  | cons x xs ih =>
    simp only [List.map_cons, List.nodup_cons] at h
    rw [List.countP_cons]
    by_cases hx : f x == T
    · have hzero : xs.countP (fun y => f y == T) = 0 := by
        rw [List.countP_eq_zero]
        intro y hy hyT
        exact h.1 (by
          have : f y = T := by simpa using hyT
          have hfx : f x = T := by simpa using hx
          rw [hfx, ← this]
          exact List.mem_map_of_mem f hy)
      simp [hx, hzero]
    · have := ih h.2
      simp [hx]
      omega

/-! ## Helper lemmas: the extractor -/

theorem mem_addUnique {l : List String} {s a : String} :
    a ∈ addUnique l s ↔ a ∈ l ∨ a = s := by
  by_cases h : s ∈ l
  · simp only [addUnique, if_pos h]
    constructor
    · exact Or.inl
    · rintro (ha | rfl) <;> [exact ha; exact h]
  · simp [addUnique, if_neg h]

theorem mem_extractStep {tl : List Char} {acc : List String} {e : String × StockEntry}
    {a : String} :
    a ∈ extractStep tl acc e ↔
      a ∈ acc ∨ (a = e.1 ∧
        (primaryConfirm e.2.primary tl = true ∨ secondaryConfirm e.2.secondary tl = true)) := by
  unfold extractStep
  by_cases h1 : e.1 ∈ acc
  · simp only [if_pos h1]
    constructor
    · exact Or.inl
    · rintro (ha | ⟨rfl, _⟩) <;> [exact ha; exact h1]
  · rw [if_neg h1]
    by_cases hp : primaryConfirm e.2.primary tl
    · simp [hp, mem_addUnique]
    · rw [if_neg hp]
      by_cases hs : secondaryConfirm e.2.secondary tl
      · simp [hp, hs, mem_addUnique]
      · simp [hp, hs]

theorem mem_extractFold {tl : List Char} {a : String} :
    ∀ (l : List (String × StockEntry)) (acc : List String),
    a ∈ l.foldl (extractStep tl) acc ↔
      a ∈ acc ∨ ∃ e ∈ l, a = e.1 ∧
        (primaryConfirm e.2.primary tl = true ∨ secondaryConfirm e.2.secondary tl = true) := by
  intro l
  induction l with
  | nil => simp
  | cons e es ih =>
    intro acc
    rw [List.foldl_cons, ih, mem_extractStep]
    simp only [List.mem_cons]
    constructor
    · rintro ((ha | he) | ⟨e', he', hrest⟩)
      · exact Or.inl ha
      · exact Or.inr ⟨e, Or.inl rfl, he⟩
      · exact Or.inr ⟨e', Or.inr he', hrest⟩
    · rintro (ha | ⟨e', (rfl | he'), hrest⟩)
      · exact Or.inl (Or.inl ha)
      · exact Or.inl (Or.inr hrest)
      · exact Or.inr ⟨e', he', hrest⟩

/-- Membership in the extractor output: a symbol is extracted exactly when
the exact-match pass found it or some registry entry with its key is
confirmed by the primary-context or secondary-vote stage. -/
theorem mem_extract {text : String} {a : String} :
    a ∈ extract_stock_symbols text ↔
      a ∈ stage1Symbols text.data ∨
      ∃ e ∈ stock_symbols, a = e.1 ∧
        (primaryConfirm e.2.primary (lowerL text.data) = true ∨
         secondaryConfirm e.2.secondary (lowerL text.data) = true) := by
  unfold extract_stock_symbols
  exact mem_extractFold stock_symbols (stage1Symbols text.data)

theorem secondaryVote_iff {tl : List Char} :
    ∀ (ks : List String) (n : Nat), n ≤ 1 →
    (secondaryVote ks tl n = true ↔ 2 ≤ n + secondaryCount ks tl) := by
  intro ks
  induction ks with
  | nil => intro n hn; simp [secondaryVote, secondaryCount]; omega
  | cons k ks ih =>
    intro n hn
    by_cases hk : subL (lowerL k.data) tl
    · have hc : secondaryCount (k :: ks) tl = secondaryCount ks tl + 1 := by
        simp [secondaryCount, hk]
      rw [secondaryVote, if_pos hk, hc]
      by_cases h2 : n + 1 ≥ 2
      · rw [if_pos h2]
        constructor
        · intro _
          omega
        · intro _
          rfl
      · rw [if_neg h2, ih (n + 1) (by omega)]
        omega
    · have hc : secondaryCount (k :: ks) tl = secondaryCount ks tl := by
        simp [secondaryCount, hk]
      rw [secondaryVote, if_neg hk, hc, ih n hn]

/-- The secondary vote confirms exactly when at least two distinct secondary
keywords occur in the lower-cased text. -/
theorem secondaryConfirm_iff {ks : List String} {tl : List Char} :
    secondaryConfirm ks tl = true ↔ 2 ≤ secondaryCount ks tl := by
  simpa using @secondaryVote_iff tl ks 0 (by omega)

/-- Entries of a list with pairwise distinct keys are determined by their
key. -/
theorem key_unique {l : List (α × β)} (h : (l.map Prod.fst).Nodup)
    {a : α} {b c : β} (hb : (a, b) ∈ l) (hc : (a, c) ∈ l) : b = c := by
  induction l with
  | nil => cases hb
  | cons e es ih =>
    simp only [List.map_cons, List.nodup_cons] at h
    rcases List.mem_cons.mp hb with rfl | hb' <;>
      rcases List.mem_cons.mp hc with hc' | hc'
    · cases hc'; rfl
    · exact absurd (List.mem_map_of_mem Prod.fst hc') (by simpa using h.1)
    · cases hc'
      exact absurd (List.mem_map_of_mem Prod.fst hb') (by simpa using h.1)
    · exact ih h.2 hb' hc'

/-- The registry keys are pairwise distinct. -/
theorem stock_symbols_keys_nodup : (stock_symbols.map Prod.fst).Nodup := by decide

theorem mem_exactScanFold {m : List Char} {a : String} :
    ∀ (l : List (String × StockEntry)) (acc : List String), a ∈ acc →
    a ∈ l.foldl (fun acc e => if exactCond m e then addUnique acc e.1 else acc) acc := by
  intro l
  induction l with
  | nil => intro acc h; exact h
  | cons e es ih =>
    intro acc h
    rw [List.foldl_cons]
    apply ih
    by_cases hc : exactCond m e
    · rw [if_pos hc]
      exact mem_addUnique.mpr (Or.inl h)
    · rwa [if_neg hc]

theorem exactScanFold_intro {m : List Char} {e : String × StockEntry} :
    ∀ (l : List (String × StockEntry)) (acc : List String),
    e ∈ l → exactCond m e = true →
    e.1 ∈ l.foldl (fun acc e => if exactCond m e then addUnique acc e.1 else acc) acc := by
  intro l
  induction l with
  | nil => intro acc h; cases h
  | cons x xs ih =>
    intro acc hmem hc
    rcases List.mem_cons.mp hmem with rfl | hmem'
    · rw [List.foldl_cons, if_pos hc]
      exact mem_exactScanFold xs _ (mem_addUnique.mpr (Or.inr rfl))
    · rw [List.foldl_cons]
      exact ih _ hmem' hc

theorem mem_exactScan {m : List Char} {acc : List String} {a : String}
    (h : a ∈ acc) : a ∈ exactScan m acc :=
  mem_exactScanFold stock_symbols acc h

theorem exactScan_intro {m : List Char} {e : String × StockEntry} {acc : List String}
    (hmem : e ∈ stock_symbols) (hc : exactCond m e = true) : e.1 ∈ exactScan m acc :=
  exactScanFold_intro stock_symbols acc hmem hc

theorem stage1Fold_mono {a : String} :
    ∀ (ms : List (List Char)) (acc : List String), a ∈ acc →
    a ∈ ms.foldl (fun acc m => exactScan m acc) acc := by
  intro ms
  induction ms with
  | nil => intro acc h; exact h
  | cons y ys ih =>
    intro acc h
    rw [List.foldl_cons]
    exact ih _ (mem_exactScan h)

theorem stage1_intro {t : List Char} {m : List Char} {e : String × StockEntry}
    (hm : m ∈ stage1Captures t) (hmem : e ∈ stock_symbols)
    (hc : exactCond m e = true) : e.1 ∈ stage1Symbols t := by
  unfold stage1Symbols
  revert hm
  generalize ([] : List String) = acc
  induction stage1Captures t generalizing acc with
  | nil => intro h; cases h
  | cons x xs ih =>
    intro hm
    rcases List.mem_cons.mp hm with rfl | hm'
    · rw [List.foldl_cons]
      exact stage1Fold_mono xs _ (exactScan_intro hmem hc)
    · rw [List.foldl_cons]
      exact ih _ hm'

/-! ## Helper lemmas: pipeline invariants -/

/-- The impact-score formula holds of every record the fixed per-source loop
accumulates. -/
theorem fixedLoop_impact_inv {detect : String → List String} {getData : String → Option ℚ}
    {senti : String → ℚ} {todayOnly : Bool} {today : Int} :
    ∀ (l : List FArticle) (seen : List String) (res : List FResult),
    (∀ r ∈ res, r.impact_score = maxAbsMove r.stock_data * (7/10) + pyAbs r.polarity * (3/10)) →
    ∀ r ∈ (fixedLoop detect getData senti todayOnly today l seen res).2,
      r.impact_score = maxAbsMove r.stock_data * (7/10) + pyAbs r.polarity * (3/10) := by
  intro l
  induction l with
  | nil => intro seen res h; simpa [fixedLoop] using h
  | cons a rest ih =>
    intro seen res h
    simp only [fixedLoop]
    split_ifs with h1 h2 h3
    · exact ih seen res h
    · exact ih _ res h
    · apply ih
      intro r hr
      rcases List.mem_append.mp hr with hr' | hr'
      · exact h r hr'
      · rcases List.mem_singleton.mp hr' with rfl
        rfl
    · exact ih _ res h

/-- The impact-score formula holds of every record the fixed pipeline keeps,
across sources. -/
theorem fixedFold_impact_inv {detect : String → List String} {getData : String → Option ℚ}
    {senti : String → ℚ} {todayOnly : Bool} {today : Int} :
    ∀ (sources : List (List FArticle)) (st : List String × List FResult),
    (∀ r ∈ st.2, r.impact_score = maxAbsMove r.stock_data * (7/10) + pyAbs r.polarity * (3/10)) →
    ∀ r ∈ (sources.foldl
      (fun st arts => fixedLoop detect getData senti todayOnly today arts st.1 st.2) st).2,
      r.impact_score = maxAbsMove r.stock_data * (7/10) + pyAbs r.polarity * (3/10) := by
  intro sources
  induction sources with
  | nil => intro st h; exact h
  | cons arts rest ih =>
    intro st h
    rw [List.foldl_cons]
    exact ih _ (fixedLoop_impact_inv arts st.1 st.2 h)

/-- The raw titles recorded by the fixed per-source loop stay pairwise
distinct, and every recorded title is in the seen set. -/
theorem fixedLoop_title_inv {detect : String → List String} {getData : String → Option ℚ}
    {senti : String → ℚ} {todayOnly : Bool} {today : Int} :
    ∀ (l : List FArticle) (seen : List String) (res : List FResult),
    (res.map fun r => r.article.title).Nodup →
    (∀ r ∈ res, r.article.title ∈ seen) →
    ((fixedLoop detect getData senti todayOnly today l seen res).2.map
        fun r => r.article.title).Nodup ∧
    ∀ r ∈ (fixedLoop detect getData senti todayOnly today l seen res).2,
      r.article.title ∈ (fixedLoop detect getData senti todayOnly today l seen res).1 := by
  intro l
  induction l with
  | nil => intro seen res hnd hin; exact ⟨by simpa [fixedLoop] using hnd,
      by simpa [fixedLoop] using hin⟩
  | cons a rest ih =>
    intro seen res hnd hin
    simp only [fixedLoop]
    split_ifs with h1 h2 h3
    · exact ih seen res hnd hin
    · exact ih _ res hnd (fun r hr => List.mem_append.mpr (Or.inl (hin r hr)))
    · apply ih
      · rw [List.map_append, List.map_singleton]
        apply List.Nodup.append hnd (List.nodup_singleton _)
        intro t ht ht'
        rcases List.mem_singleton.mp ht' with rfl
        rcases List.mem_map.mp ht with ⟨r, hr, hrt⟩
        exact h1 (hrt ▸ hin r hr)
      · intro r hr
        rcases List.mem_append.mp hr with hr' | hr'
        · exact List.mem_append.mpr (Or.inl (hin r hr'))
        · rcases List.mem_singleton.mp hr' with rfl
          exact List.mem_append.mpr (Or.inr (List.mem_singleton.mpr rfl))
    · exact ih _ res hnd (fun r hr => List.mem_append.mpr (Or.inl (hin r hr)))

/-- Across sources, the raw titles of the fixed pipeline's accumulated
results stay pairwise distinct. -/
theorem fixedFold_title_inv {detect : String → List String} {getData : String → Option ℚ}
    {senti : String → ℚ} {todayOnly : Bool} {today : Int} :
    ∀ (sources : List (List FArticle)) (st : List String × List FResult),
    (st.2.map fun r => r.article.title).Nodup →
    (∀ r ∈ st.2, r.article.title ∈ st.1) →
    ((sources.foldl
        (fun st arts => fixedLoop detect getData senti todayOnly today arts st.1 st.2)
        st).2.map fun r => r.article.title).Nodup := by
  intro sources
  induction sources with
  | nil => intro st hnd _; exact hnd
  | cons arts rest ih =>
    intro st hnd hin
    rw [List.foldl_cons]
    have h := @fixedLoop_title_inv detect getData senti todayOnly today arts st.1 st.2 hnd hin
    exact ih _ h.1 h.2

/-- The normalised titles recorded by the `run_analysis` loop stay pairwise
distinct, and every recorded normalised title is in the seen set. -/
theorem runLoop_title_inv {enrich : PArticle → Option ι} :
    ∀ (l : List PArticle) (seen : List String) (res : List (PArticle × ι)),
    (res.map fun p => normTitle p.1.title).Nodup →
    (∀ p ∈ res, normTitle p.1.title ∈ seen) →
    ((runAnalysisLoop enrich l seen res).2.map fun p => normTitle p.1.title).Nodup ∧
    ∀ p ∈ (runAnalysisLoop enrich l seen res).2,
      normTitle p.1.title ∈ (runAnalysisLoop enrich l seen res).1 := by
  intro l
  induction l with
  | nil => intro seen res hnd hin; exact ⟨by simpa [runAnalysisLoop] using hnd,
      by simpa [runAnalysisLoop] using hin⟩
  | cons a rest ih =>
    intro seen res hnd hin
    rw [runAnalysisLoop]
    split_ifs with h1
    · exact ih seen res hnd hin
    · cases he : enrich a with
      | none =>
        exact ih _ res hnd (fun p hp => List.mem_append.mpr (Or.inl (hin p hp)))
      | some r =>
        apply ih
        · rw [List.map_append, List.map_singleton]
          apply List.Nodup.append hnd (List.nodup_singleton _)
          intro t ht ht'
          rcases List.mem_singleton.mp ht' with rfl
          rcases List.mem_map.mp ht with ⟨p, hp, hpt⟩
          exact h1 (hpt ▸ hin p hp)
        · intro p hp
          rcases List.mem_append.mp hp with hp' | hp'
          · exact List.mem_append.mpr (Or.inl (hin p hp'))
          · rcases List.mem_singleton.mp hp' with rfl
            exact List.mem_append.mpr (Or.inr (List.mem_singleton.mpr rfl))

/-- Across sources, the normalised titles of the `run_analysis` results stay
pairwise distinct. -/
theorem runFold_title_inv {enrich : PArticle → Option ι} :
    ∀ (sources : List (List PArticle)) (st : List String × List (PArticle × ι)),
    (st.2.map fun p => normTitle p.1.title).Nodup →
    (∀ p ∈ st.2, normTitle p.1.title ∈ st.1) →
    ((sources.foldl (fun st arts => runAnalysisLoop enrich arts st.1 st.2) st).2.map
        fun p => normTitle p.1.title).Nodup := by
  intro sources
  induction sources with
  | nil => intro st hnd _; exact hnd
  | cons arts rest ih =>
    intro st hnd hin
    rw [List.foldl_cons]
    have h := @runLoop_title_inv _ enrich arts st.1 st.2 hnd hin
    exact ih _ h.1 h.2

/-- Every record the analyzer per-source loop accumulates either was already
accumulated or arises from an article of the processed list with the
timestamp default applied. -/
theorem analyzerLoop_mem {getData : String → Option ℚ} {senti : String → ℚ}
    {todayOnly : Bool} {today : Int} :
    ∀ (l : List PArticle) (seen : List String) (res : List PResult),
    ∀ r ∈ (analyzerLoop getData senti todayOnly today l seen res).2,
      r ∈ res ∨ ∃ a ∈ l, r.article = updTs today a := by
  intro l
  induction l with
  | nil =>
    intro seen res r hr
    exact Or.inl (by simpa [analyzerLoop] using hr)
  | cons a rest ih =>
    intro seen res r hr
    rw [analyzerLoop] at hr
    split_ifs at hr with h1 h2
    · rcases ih seen res r hr with h | ⟨a', ha', he⟩
      · exact Or.inl h
      · exact Or.inr ⟨a', List.mem_cons.mpr (Or.inr ha'), he⟩
    · rcases ih _ _ r hr with h | ⟨a', ha', he⟩
      · rcases List.mem_append.mp h with h' | h'
        · exact Or.inl h'
        · rcases List.mem_singleton.mp h' with rfl
          exact Or.inr ⟨a, List.mem_cons.mpr (Or.inl rfl), rfl⟩
      · exact Or.inr ⟨a', List.mem_cons.mpr (Or.inr ha'), he⟩
    · rcases ih seen res r hr with h | ⟨a', ha', he⟩
      · exact Or.inl h
      · exact Or.inr ⟨a', List.mem_cons.mpr (Or.inr ha'), he⟩

/-- The sentiment record computed on a successful TextBlob analysis, with the
pair left abstract. -/
theorem analyze_sentiment_some (pr : ℚ × ℚ) :
    analyze_sentiment (some pr) =
      { polarity := pr.1, subjectivity := pr.2,
        assessment := if pr.1 > 2/10 then "positive"
          else if pr.1 < -(2/10) then "negative" else "neutral" } := by
  obtain ⟨p, s⟩ := pr
  rfl

/-- Every result of the analyzer `get_recent_news` arises from one of the
first 10 parsed articles of one of the sources. -/
theorem analyzerFold_mem {getData : String → Option ℚ} {senti : String → ℚ}
    {todayOnly : Bool} {today : Int} :
    ∀ (sources : List (List PArticle)) (st : List String × List PResult),
    ∀ r ∈ (sources.foldl
      (fun st arts => analyzerLoop getData senti todayOnly today (arts.take 10) st.1 st.2)
      st).2,
      r ∈ st.2 ∨ ∃ src ∈ sources, ∃ a ∈ src.take 10, r.article = updTs today a := by
  intro sources
  induction sources with
  | nil => intro st r hr; exact Or.inl hr
  | cons arts rest ih =>
    intro st r hr
    rw [List.foldl_cons] at hr
    rcases ih _ r hr with h | ⟨src, hsrc, ha⟩
    · rcases analyzerLoop_mem (arts.take 10) st.1 st.2 r h with h' | ⟨a, ha, he⟩
      · exact Or.inl h'
      · exact Or.inr ⟨arts, List.mem_cons.mpr (Or.inl rfl), a, ha, he⟩
    · exact Or.inr ⟨src, List.mem_cons.mpr (Or.inr hsrc), ha⟩

/-! ## The claims -/

/-- C1: the live-news pipeline (`get_recent_news` of `market_analyzer_fixed.py`)
assigns each kept article the impact score
`max abs percent change over its resolved symbols * 0.7 + abs(polarity) * 0.3`
(with an empty maximum defaulting to 0), and returns the results ordered by
this score descending; in particular a 6-percent-move, zero-polarity article
(score 4.2) ranks above a 0-percent-move, polarity-1.0 article (score 0.3). -/
theorem C1_impact_score_ranking :
    (∀ (detect : String → List String) (getData : String → Option ℚ) (senti : String → ℚ)
        (todayOnly : Bool) (today : Int) (sources : List (List FArticle)),
      ((get_recent_news_fixed detect getData senti todayOnly today sources).Pairwise
        (fun a b => b.impact_score ≤ a.impact_score)) ∧
      ((get_recent_news_fixed detect getData senti todayOnly today sources).Forall
        (fun r => r.impact_score =
          maxAbsMove r.stock_data * (7/10) + pyAbs r.polarity * (3/10)))) ∧
    ((get_recent_news_fixed exampleDetect exampleData exampleSenti true 0
        [[zeroMoveArticle, sixMoveArticle]]).map
      (fun r => (r.article.title, r.impact_score)) =
      [("tsla six", 42/10), ("msft zero", 3/10)]) := by
  constructor
  · intro detect getData senti todayOnly today sources
    constructor
    · exact pairwise_sortDesc _
    · rw [List.forall_iff_forall_mem]
      intro r hr
      unfold get_recent_news_fixed at hr
      rw [mem_sortDesc] at hr
      exact fixedFold_impact_inv sources ([], []) (by simp) r hr
  · simp [get_recent_news_fixed, fixedLoop, exampleDetect, exampleData, exampleSenti,
      zeroMoveArticle, sixMoveArticle, keep_fixed, maxAbsMove, pyAbs, pyMax,
      sortDesc, insertDesc]
    norm_num

/-- C2 counterexample: with an explicit scorer, the combined polarity of
`analyze_stock_impact` differs from the claimed
`score(H)*0.7 + score(H ++ " " ++ B)*0.3`, because the code scores
`f"{title} {title} {summary}"` (the title twice), not the headline-body
concatenation. -/
theorem C2_counterexample :
    (analyze_stock_impact_sentiment cexScore "a" "b").polarity ≠
      combined_sentiment_spec cexScore "a" "b" := by
  simp only [analyze_stock_impact_sentiment, combined_sentiment_spec, cexScore,
    analyze_sentiment_some]
  simp
  norm_num

/-- C2 (amended): the combined sentiment blends the headline score and the
score of `title ++ " " ++ title ++ " " ++ summary` with weights 0.7/0.3 for
both polarity and subjectivity, classifies the blend with the strict
plus/minus 0.15 thresholds, and single-text scoring uses the plus/minus 0.2
threshold. -/
theorem C2_sentiment_blend :
    ∀ (score : String → ℚ × ℚ) (title summary : String),
      (analyze_stock_impact_sentiment score title summary).polarity =
        (score title).1 * (7/10) +
          (score (title ++ " " ++ title ++ " " ++ summary)).1 * (3/10) ∧
      (analyze_stock_impact_sentiment score title summary).subjectivity =
        (score title).2 * (7/10) +
          (score (title ++ " " ++ title ++ " " ++ summary)).2 * (3/10) ∧
      ((analyze_stock_impact_sentiment score title summary).assessment = "positive" ↔
        15/100 < (analyze_stock_impact_sentiment score title summary).polarity) ∧
      ((analyze_stock_impact_sentiment score title summary).assessment = "negative" ↔
        (analyze_stock_impact_sentiment score title summary).polarity < -(15/100)) ∧
      (∀ p s : ℚ, ((analyze_sentiment (some (p, s))).assessment = "positive" ↔ 2/10 < p)) := by
  intro score title summary
  refine ⟨?_, ?_, ?_, ?_, ?_⟩
  · simp [analyze_stock_impact_sentiment, analyze_sentiment_some]
  · simp [analyze_stock_impact_sentiment, analyze_sentiment_some]
  · simp only [analyze_stock_impact_sentiment, analyze_sentiment_some]
    split_ifs with h1 h2
    · exact iff_of_true rfl h1
    · exact iff_of_false (by decide) h1
    · exact iff_of_false (by decide) h1
  · simp only [analyze_stock_impact_sentiment, analyze_sentiment_some]
    split_ifs with h1 h2
    · refine iff_of_false (by decide) ?_
      intro h
      linarith
    · exact iff_of_true rfl h2
    · exact iff_of_false (by decide) h2
  · intro p s
    simp only [analyze_sentiment]
    split_ifs with h1 h2
    · exact iff_of_true rfl h1
    · exact iff_of_false (by decide) h1
    · exact iff_of_false (by decide) h1

/-- C3: for a registry symbol with no exact-match confirmation and no
primary-keyword confirmation on a text, the extractor confirms the symbol
exactly when at least two distinct secondary keywords of that symbol occur
in the lower-cased text. -/
theorem C3_secondary_keyword_threshold (text sym : String) (e : StockEntry)
    (hreg : (sym, e) ∈ stock_symbols)
    (h1 : sym ∉ stage1Symbols text.data)
    (h2 : primaryConfirm e.primary (lowerL text.data) = false) :
    sym ∈ extract_stock_symbols text ↔
      2 ≤ secondaryCount e.secondary (lowerL text.data) := by
  rw [mem_extract]
  constructor
  · rintro (hs | ⟨e', he', hk, hconf⟩)
    · exact absurd hs h1
    · obtain ⟨k, d⟩ := e'
      simp only at hk
      subst hk
      have hd : d = e := key_unique stock_symbols_keys_nodup he' hreg
      subst hd
      rcases hconf with hp | hsC
      · rw [h2] at hp
        cases hp
      · exact secondaryConfirm_iff.mp hsC
  · intro hcnt
    exact Or.inr ⟨(sym, e), hreg, rfl, Or.inr (secondaryConfirm_iff.mpr hcnt)⟩

/-- C3 witness: "mac and ios update" carries two AAPL secondary keywords and
confirms AAPL; "mac event soon" carries exactly one and does not. -/
theorem C3_witness :
    ("AAPL" ∈ extract_stock_symbols "mac and ios update") ∧
    ("AAPL" ∉ extract_stock_symbols "mac event soon") := by
  constructor
  · exact (C3_secondary_keyword_threshold "mac and ios update" "AAPL" aaplEntry
      (by decide) (by decide) (by decide)).mpr (by decide)
  · intro h
    exact absurd ((C3_secondary_keyword_threshold "mac event soon" "AAPL" aaplEntry
      (by decide) (by decide) (by decide)).mp h) (by decide)

/-- C4: any stage-1 regex match whose upper-cased text belongs to a registry
symbol's exact-alias set makes the extractor include that symbol, regardless
of the symbol's keywords. -/
theorem C4_exact_match_precedence (text : String) (m : List Char) (sym : String)
    (e : StockEntry) (hm : m ∈ stage1Captures text.data)
    (hreg : (sym, e) ∈ stock_symbols)
    (hc : upperL m ∈ e.exact.map (fun s => upperL s.data)) :
    sym ∈ extract_stock_symbols text := by
  have h : sym ∈ stage1Symbols text.data :=
    stage1_intro hm hreg (by simpa [exactCond] using hc)
  exact mem_extract.mpr (Or.inl h)

/-- C4 witness: `extract("$AAPL surges")` includes AAPL through the
dollar-prefixed exact-match pattern. -/
theorem C4_witness : "AAPL" ∈ extract_stock_symbols "$AAPL surges" :=
  C4_exact_match_precedence "$AAPL surges" "AAPL".data "AAPL" aaplEntry
    (by decide) (by decide) (by decide)

/-- C5 counterexample: two articles with equal whitespace-normalised
lower-cased titles but different raw titles both survive the fixed
pipeline's deduplication, which keys on the raw title. -/
theorem C5_counterexample :
    (get_recent_news_fixed constDetect constData constSenti true 0
        [[dupArticleA, dupArticleB]]).length = 2 ∧
    normTitle dupArticleA.title = normTitle dupArticleB.title ∧
    dupArticleA.title ≠ dupArticleB.title := by
  refine ⟨?_, by decide, by decide⟩
  unfold get_recent_news_fixed
  rw [length_sortDesc]
  decide

/-- C5 (amended): `run_analysis` of `market_analyzer.py` emits at most one
result per whitespace-normalised lower-cased title; the fixed pipeline's
`get_recent_news` deduplicates on the raw title string, so only verbatim
duplicate titles collapse. -/
theorem C5_dedup_key (ι : Type) :
    (∀ (enrich : PArticle → Option ι) (sources : List (List PArticle)) (T : String),
      (run_analysis enrich sources).countP (fun p => normTitle p.1.title == T) ≤ 1) ∧
    (∀ (detect : String → List String) (getData : String → Option ℚ) (senti : String → ℚ)
        (todayOnly : Bool) (today : Int) (sources : List (List FArticle)) (T : String),
      (get_recent_news_fixed detect getData senti todayOnly today sources).countP
        (fun r => r.article.title == T) ≤ 1) := by
  constructor
  · intro enrich sources T
    unfold run_analysis
    exact countP_le_one_of_nodup_map
      (runFold_title_inv sources ([], []) (by simp) (by simp)) T
  · intro detect getData senti todayOnly today sources T
    unfold get_recent_news_fixed
    rw [countP_sortDesc]
    exact countP_le_one_of_nodup_map
      (fixedFold_title_inv sources ([], []) (by simp) (by simp)) T

/-- C6: the disk-cache freshness check of `get_stock_data` in
`market_analyzer.py` compares `timedelta.seconds`, which wraps at one day:
an entry aged 88200 seconds (24 h 30 min) is still served from cache even
though its age exceeds the one-hour freshness window, violating the
invariant that an entry is used only while `now - timestamp` is below the
window; the in-memory check of the fixed variant compares the full
difference and correctly rejects an expired entry. -/
theorem C6_cache_staleness :
    disk_cache_fresh 88200 0 = true ∧ 3600 < 88200 - 0 ∧
    disk_cache_fresh 1800 0 = true ∧
    stock_cache_fresh 301 0 = false := by
  refine ⟨by decide, by decide, by decide, by decide⟩

/-- C7 counterexample: the fixed variant's sentiment scorer returns the same
record on an analysis failure as on a computed neutral score, so the failure
is not distinguishable and is not tagged `error`. -/
theorem C7_counterexample :
    analyze_sentiment_fixed none = analyze_sentiment_fixed (some (0, 0)) ∧
    (analyze_sentiment_fixed none).assessment ≠ "error" := by
  constructor
  · norm_num [analyze_sentiment_fixed]
  · decide

/-- C7 (amended): `analyze_sentiment` of `market_analyzer.py` returns the
zero record tagged `error` on failure, and no successfully computed record
carries that tag, so callers can tell failure from neutral; the fixed
variant instead returns the zero record tagged `neutral` on failure. -/
theorem C7_error_tagging :
    analyze_sentiment none = { polarity := 0, subjectivity := 0, assessment := "error" } ∧
    (∀ p s : ℚ, (analyze_sentiment (some (p, s))).assessment ≠ "error") ∧
    analyze_sentiment_fixed none =
      { polarity := 0, subjectivity := 0, assessment := "neutral" } := by
  refine ⟨rfl, ?_, rfl⟩
  intro p s
  simp only [analyze_sentiment]
  split_ifs <;> simp

/-- C8: `_process_stock_data` of `market_analyzer_fixed.py` divides by the
prior close with no zero guard; on a frame whose prior close is zero the
returned record carries an infinite `change_percent` instead of the metric
being omitted. -/
theorem C8_unguarded_zero_division :
    (process_stock_data "AAPL"
      [{ close := 0, volume := 100, high := 1, low := 1 },
       { close := 1, volume := 100, high := 2, low := 1 }]).change_percent = NpFloat.inf := by
  simp only [process_stock_data, npDiv, npMul]
  norm_num

/-- C9 counterexample: in the fixed pipeline an article dated today is kept
by a yesterday query, and an article with no parsed date is also kept by a
yesterday query, contradicting the claim that a yesterday query keeps an
article exactly when its date is the previous calendar day. -/
theorem C9_counterexample :
    keep_fixed false 0 (some 0) = true ∧ ((0 : Int) ≠ 0 - 1) ∧
    keep_fixed false 0 none = true := by
  refine ⟨by decide, by decide, by decide⟩

/-- C9 (amended): `get_recent_news` of `market_analyzer.py` filters exactly
as claimed (a missing timestamp becomes the current time and therefore
passes a today query); the fixed variant leaves undated articles unfiltered
for both query types and keeps, for a yesterday query, articles dated today
or yesterday. -/
theorem C9_day_filter :
    (∀ (today : Int) (ts : Option Int),
      keep_analyzer true today ts = true ↔ ts.getD today = today) ∧
    (∀ (today : Int) (ts : Option Int),
      keep_analyzer false today ts = true ↔ ts.getD today = today - 1) ∧
    (∀ today : Int, keep_analyzer true today none = true) ∧
    (∀ (today d : Int), keep_fixed true today (some d) = true ↔ d = today) ∧
    (∀ (today d : Int),
      keep_fixed false today (some d) = true ↔ (d = today ∨ d = today - 1)) ∧
    (∀ (todayOnly : Bool) (today : Int), keep_fixed todayOnly today none = true) := by
  refine ⟨?_, ?_, ?_, ?_, ?_, ?_⟩
  · intro today ts
    simp [keep_analyzer]
  · intro today ts
    simp [keep_analyzer]
  · intro today
    simp [keep_analyzer]
  · intro today d
    simp [keep_fixed]
  · intro today d
    simp [keep_fixed]
  · intro todayOnly today
    simp [keep_fixed]

/-- C10: every result of `get_recent_news` in `market_analyzer.py` arises
from one of the first 10 parsed articles of some source (with only the
timestamp default applied); a single source with 11 parsed articles yields
exactly 10 results. -/
theorem C10_first_ten_articles_cap :
    (∀ (getData : String → Option ℚ) (senti : String → ℚ) (todayOnly : Bool) (today : Int)
        (sources : List (List PArticle)),
      (get_recent_news_analyzer getData senti todayOnly today sources).Forall
        (fun r => ∃ src ∈ sources, ∃ a ∈ src.take 10, r.article = updTs today a)) ∧
    ((get_recent_news_analyzer noStockData zeroSenti true 0 [elevenArticles]).length = 10) := by
  constructor
  · intro getData senti todayOnly today sources
    rw [List.forall_iff_forall_mem]
    intro r hr
    unfold get_recent_news_analyzer at hr
    rcases analyzerFold_mem sources ([], []) r hr with h | h
    · cases h
    · exact h
  · decide

end MarketAnalysis
